import Mathlib

/-!
Verification development for the meeting-processing pipeline
(transcribe-meeting, analyze-meeting, link-meeting edge functions).

The definitions below are a shallow embedding of the TypeScript source:
pure string manipulation is translated to functions on `String`/`List Char`,
the persistent store is a record of row lists, and each stage is a function
from an environment (the outcomes of its external calls: model responses,
embedding results, nearest-neighbour search results, store-write errors)
and a store to a response together with the updated store.
JavaScript numbers appearing in similarity arithmetic are modelled as `ℚ`.
-/

namespace MeetingBrain

/-- JavaScript whitespace as used by `trim` and by `\s` in the source regexes
(restricted to the ASCII range that can occur here). -/
def jsSpace (c : Char) : Bool :=
  c = ' ' || c = '\t' || c = '\n' || c = '\r' || c = '\x0b' || c = '\x0c'

/-- JavaScript `trim` on a character list: drop leading and trailing whitespace. -/
def jsTrimList (l : List Char) : List Char :=
  ((l.dropWhile jsSpace).reverse.dropWhile jsSpace).reverse

/-- JavaScript `String.prototype.trim`. -/
def jsTrim (s : String) : String :=
  ⟨jsTrimList s.data⟩

/-- JavaScript `substring(0, n)` / `slice(0, n)`: the first `n` characters. -/
def strTake (s : String) (n : Nat) : String :=
  ⟨s.data.take n⟩

/-- Split a character list at every occurrence of the separator
(JavaScript `split`, which keeps empty pieces). -/
def splitOnChar : List Char → Char → List (List Char)
  | [], _ => [[]]
  | c :: cs, sep =>
    if c = sep then [] :: splitOnChar cs sep
    else
      match splitOnChar cs sep with
      | [] => [[c]]
      | g :: gs => (c :: g) :: gs

/-- The line split `transcript.split("\n")`. -/
def splitLines (s : String) : List String :=
  (splitOnChar s.data '\n').map String.mk

/-- Match a literal word case-insensitively at the head of the input,
returning the matched source characters (original casing) and the rest. -/
def matchLit : List Char → List Char → Option (List Char × List Char)
  | [], rest => some ([], rest)
  | _ :: _, [] => none
  | p :: ps, c :: cs =>
    if c.toLower = p.toLower then
      match matchLit ps cs with
      | some (m, r) => some (c :: m, r)
      | none => none
    else none

/-- The literal word of the speaker regex. -/
def speakerWord : List Char := ['S', 'p', 'e', 'a', 'k', 'e', 'r']

/-- The source regex `/^(Speaker\s*\d+)\s*:\s*/i` applied at the start of a
line: on success returns the capture group `Speaker\s*\d+` (original casing
preserved, as the flag `i` makes matching case-insensitive) and the part of
the line after the whole match (which ends with the trailing `\s*`). -/
def matchSpeaker (l : List Char) : Option (List Char × List Char) :=
  match matchLit speakerWord l with
  | none => none
  | some (w, r1) =>
    let ws1 := r1.takeWhile jsSpace
    let r2 := r1.dropWhile jsSpace
    let ds := r2.takeWhile Char.isDigit
    let r3 := r2.dropWhile Char.isDigit
    if ds.isEmpty then none
    else
      match r3.dropWhile jsSpace with
      | ':' :: r5 => some (w ++ ws1 ++ ds, r5.dropWhile jsSpace)
      | _ => none

/-- A transcript segment row (table `transcripts`). The source always writes
`start_seconds = 0`, `end_seconds = 0`, `confidence = null`. -/
structure Segment where
  meeting_id : String
  speaker_label : Option String
  text : String
  start_seconds : ℚ
  end_seconds : ℚ
  confidence : Option ℚ
  language : String
deriving DecidableEq, Repr

/-- One iteration of the transcript parsing loop: trim the line, skip it if
blank, otherwise attempt the speaker regex; on a match the label is the
capture group and the text is the line with the whole match removed (the
match is a prefix, so `replace` removes it) and trimmed. -/
def parseLine (mid lang rawLine : String) : Option Segment :=
  let line := jsTrim rawLine
  if line = "" then none
  else
    match matchSpeaker line.data with
    | some (lbl, rest) =>
      some ⟨mid, some ⟨lbl⟩, jsTrim ⟨rest⟩, 0, 0, none, lang⟩
    | none =>
      some ⟨mid, none, line, 0, 0, none, lang⟩

/-- The sentinel segment written when no speech was transcribed. -/
def sentinelSegment (mid lang : String) : Segment :=
  ⟨mid, none, "[No speech detected in this recording]", 0, 0, none, lang⟩

/-- Transcript parsing (steps "Parsing" of the transcription function):
if the trimmed transcript is empty or exactly `[inaudible]` no line is
parsed; otherwise the trimmed transcript is split on newlines and each line
parsed; if no segment was produced the sentinel segment is used. -/
def parsedSegments (mid lang transcript : String) : List Segment :=
  if jsTrim transcript = "" ∨ jsTrim transcript = "[inaudible]" then []
  else (splitLines (jsTrim transcript)).filterMap (parseLine mid lang)

/-- The final segment list: the sentinel segment when nothing was parsed. -/
def parseTranscript (mid lang transcript : String) : List Segment :=
  if (parsedSegments mid lang transcript).length = 0 then
    [sentinelSegment mid lang]
  else parsedSegments mid lang transcript

/-- The two transfer strategies of the transcription stage. -/
inductive TransferStrategy where
  | inlineBase64
  | fileApi
deriving DecidableEq, Repr

/-- The branch `if (audioBytes.length > 4 * 1024 * 1024)` — File API for large files,
inline base64 otherwise. -/
def chooseTransfer (byteLen : Nat) : TransferStrategy :=
  if byteLen > 4 * 1024 * 1024 then .fileApi else .inlineBase64

/-- A row of the `meetings` table (the columns the pipeline touches). -/
structure MeetingRow where
  id : String
  user_id : String
  title : String
  language_code : String
  status : String
  audio_path : Option String
deriving DecidableEq, Repr

/-- A row of the `meeting_notes` table (the columns the pipeline touches). -/
structure NoteRow where
  meeting_id : String
  summary : String
  decisions : List String
  open_questions : List String
  model_version : String
deriving DecidableEq, Repr

/-- A row of the `action_items` table (the columns the pipeline touches). -/
structure ActionItemRow where
  meeting_id : String
  task : String
  owner : Option String
  priority : String
  deadline : Option String
  status : String
deriving DecidableEq, Repr

/-- A row of the `nodes` table. Store-assigned identifiers are modelled as
sequential naturals. -/
structure StoredNode where
  id : Nat
  user_id : String
  node_type : String
  title : String
  content : String
  embedding : Option (List ℚ)
  source_meeting_id : String
deriving DecidableEq, Repr

/-- A row of the `edges` table / an element of `edgesToInsert`. -/
structure EdgeRow where
  from_node : Nat
  to_node : Nat
  relation : String
  strength : ℚ
deriving DecidableEq, Repr

/-- The persistent store: the tables the three stages read and write.
`nextNodeId` models the store assigning fresh node identifiers. -/
structure Store where
  meetings : List MeetingRow
  transcripts : List Segment
  notes : List NoteRow
  action_items : List ActionItemRow
  nodes : List StoredNode
  edges : List EdgeRow
  nextNodeId : Nat
deriving DecidableEq, Repr

/-- The lookup `.from("meetings").select(...).eq("id", mid).single()`. -/
def findMeeting (ms : List MeetingRow) (mid : String) : Option MeetingRow :=
  ms.find? fun m => m.id = mid

/-- The update `.from("meetings").update({ status }).eq("id", mid)`. -/
def setMeetingStatus (ms : List MeetingRow) (mid s : String) : List MeetingRow :=
  ms.map fun m => if m.id = mid then { m with status := s } else m

/-- Apply a status update to the meetings table of a store. -/
def setStatus (st : Store) (mid s : String) : Store :=
  { st with meetings := setMeetingStatus st.meetings mid s }

/-- The request/response shape of a stage invocation (`steps` diagnostics
and stage-specific counts are reduced to the data the claims mention). -/
inductive StageResponse where
  | success (count : Nat)
  | failure (httpStatus : Nat) (error : String)
deriving DecidableEq, Repr

/-- Outcomes of the external calls made by the transcription stage.
Store reads/writes are taken from the store itself; `insertError` models a
rejected batch insert of segments. -/
structure TranscribeEnv where
  download : Option (List Nat)
  startResult : Except String (Option String)
  uploadResult : Except String (Option String)
  gemini : Except String String
  insertError : Option String

/-- The three-step resumable upload (large-file path): start (throwing on a
non-ok response or a missing upload URL), upload the bytes (throwing on a
non-ok response or a missing file URI); the readiness polling loop never
throws and is omitted (it only delays). -/
def uploadFileApi (env : TranscribeEnv) : Except String String :=
  match env.startResult with
  | .error e => .error ("File API start failed: " ++ e)
  | .ok none => .error "No upload URL returned"
  | .ok (some _url) =>
    match env.uploadResult with
    | .error e => .error ("File upload failed: " ++ e)
    | .ok none => .error "No file URI"
    | .ok (some uri) => .ok uri

/-- The transcription stage for an accepted `meeting_id`
(`packages/supabase/functions/transcribe-meeting/index.ts`): fetch the
meeting, require an audio path, download, pick the transfer strategy,
transcribe, parse, insert the segments, set status `analyzing`; the catch
handler sets status `failed` and returns a 500 response. -/
def runTranscribe (env : TranscribeEnv) (st : Store) (mid : String) :
    StageResponse × Store :=
  match findMeeting st.meetings mid with
  | none => (.failure 500 "Not found", setStatus st mid "failed")
  | some meeting =>
    if meeting.audio_path = none ∨ meeting.audio_path = some "" then
      (.failure 500 "No audio uploaded", setStatus st mid "failed")
    else
      match env.download with
      | none => (.failure 500 "Download failed", setStatus st mid "failed")
      | some audioBytes =>
        match (match chooseTransfer audioBytes.length with
               | .fileApi => (uploadFileApi env).map some
               | .inlineBase64 => Except.ok none) with
        | .error e => (.failure 500 e, setStatus st mid "failed")
        | .ok _fileUri =>
          match env.gemini with
          | .error e => (.failure 500 e, setStatus st mid "failed")
          | .ok transcript =>
            let segments := parseTranscript mid meeting.language_code transcript
            match env.insertError with
            | some e =>
              (.failure 500 ("Insert failed: " ++ e), setStatus st mid "failed")
            | none =>
              let st1 := { st with transcripts := st.transcripts ++ segments }
              (.success segments.length, setStatus st1 mid "analyzing")

/-- The backquote character (written via its code point). -/
def backquote : Char := Char.ofNat 96

/-- The letters of the `json` fence tag. -/
def jsonTag : List Char := ['j', 's', 'o', 'n']

/-- Match one markdown fence occurrence at the head of the input:
three backquotes, the tag (case-insensitively, for the `i` flag of
the first replace), then greedy `\s*`; returns the rest on success. -/
def matchFence (tag : List Char) (l : List Char) : Option (List Char) :=
  match l with
  | a :: b :: c :: r =>
    if a = backquote ∧ b = backquote ∧ c = backquote then
      match matchLit tag r with
      | some pr => some (pr.2.dropWhile jsSpace)
      | none => none
    else none
  | _ => none

/-- Global regex replacement of a fence pattern by the empty string,
scanning left to right and continuing after each match. Fuel equal to the
input length makes the recursion structural; every step consumes at least
one character, so the fuel never runs out on the initial call. -/
def replaceAllFenceAux (tag : List Char) : Nat → List Char → List Char
  | 0, l => l
  | _ + 1, [] => []
  | fuel + 1, x :: rest =>
    match matchFence tag (x :: rest) with
    | some r => replaceAllFenceAux tag fuel r
    | none => x :: replaceAllFenceAux tag fuel rest

/-- Replace every occurrence of a fence pattern by the empty string. -/
def replaceAllFence (tag : List Char) (l : List Char) : List Char :=
  replaceAllFenceAux tag l.length l

/-- Defensive fence stripping before JSON parsing:
`rawText.replace(/```json\s*/gi, "").replace(/```\s*/g, "").trim()`. -/
def stripFences (raw : String) : String :=
  jsTrim ⟨replaceAllFence [] (replaceAllFence jsonTag raw.data)⟩

/-- One action item of the parsed generation payload. Fields are optional
because arbitrary JSON may omit them. -/
structure ActionItemJson where
  task : String
  owner : Option String
  priority : Option String
  deadline : Option String
deriving DecidableEq, Repr

/-- The parsed generation payload. Fields are optional because arbitrary
JSON may omit them (the source guards each with `|| []` / `|| ...`). -/
structure Analysis where
  summary : Option String
  action_items : Option (List ActionItemJson)
  decisions : Option (List String)
  open_questions : Option (List String)
deriving DecidableEq, Repr

/-- JavaScript `s || d` for a possibly-absent string (absent and the empty
string are falsy). -/
def jsOrString (s : Option String) (d : String) : String :=
  match s with
  | none => d
  | some s => if s = "" then d else s

/-- JavaScript `l || []` for a possibly-absent array (an array is always
truthy, so a present empty array stays empty). -/
def jsOrList {α : Type} (l : Option (List α)) : List α :=
  match l with
  | none => []
  | some l => l

/-- JavaScript `s || null` for a possibly-absent string. -/
def jsOrNull (s : Option String) : Option String :=
  match s with
  | none => none
  | some s => if s = "" then none else some s

/-- The normalization `["high", "medium", "low"].includes(item.priority) ? item.priority :
"medium"` (an absent priority is not in the list). -/
def normalizePriority (p : Option String) : String :=
  match p with
  | some s => if s = "high" ∨ s = "medium" ∨ s = "low" then s else "medium"
  | none => "medium"

/-- Parse the generation response (step "Parsing analysis"): strip fences,
attempt JSON parsing (the JSON parser is an external black box, passed in as
`parse`); on failure synthesize the degraded payload with the 500-character
prefix of the raw response as summary and empty arrays. -/
def parseAnalysisText (parse : String → Option Analysis) (rawText : String) :
    Analysis :=
  let jsonStr := stripFences rawText
  match parse jsonStr with
  | some analysis => analysis
  | none =>
    { summary := some (strTake rawText 500)
      action_items := some []
      decisions := some []
      open_questions := some [] }

/-- The `meeting_notes` row upserted by the analysis stage. -/
def mkNoteRow (mid : String) (analysis : Analysis) : NoteRow :=
  { meeting_id := mid
    summary := jsOrString analysis.summary "No summary generated"
    decisions := jsOrList analysis.decisions
    open_questions := jsOrList analysis.open_questions
    model_version := "gemini-2.5-flash" }

/-- The `action_items` rows inserted by the analysis stage. -/
def mkActionItems (mid : String) (analysis : Analysis) : List ActionItemRow :=
  (jsOrList analysis.action_items).map fun item =>
    { meeting_id := mid
      task := item.task
      owner := item.owner
      priority := normalizePriority item.priority
      deadline := jsOrNull item.deadline
      status := "open" }

/-- Upsert keyed on `meeting_id` (`onConflict: "meeting_id"`): replace the
matching row if one exists, otherwise append. -/
def upsertNoteList (notes : List NoteRow) (row : NoteRow) : List NoteRow :=
  if notes.any (fun n => n.meeting_id = row.meeting_id) then
    notes.map fun n => if n.meeting_id = row.meeting_id then row else n
  else notes ++ [row]

/-- One line of the concatenated transcript text. -/
def segLine (s : Segment) : String :=
  match s.speaker_label with
  | some lbl => lbl ++ ": " ++ s.text
  | none => s.text

/-- The full transcript text fed to the generation prompt. -/
def buildFullTranscript (segs : List Segment) : String :=
  String.intercalate "\n" (segs.map segLine)

/-- Outcomes of the external calls made by the analysis stage. `gemini` is
keyed on the full transcript text; `parse` is the JSON parser applied to the
fence-stripped response. -/
structure AnalyzeEnv where
  fetchError : Option String
  gemini : String → Except String String
  parse : String → Option Analysis
  noteError : Option String
  actionError : Option String

/-- The analysis stage for an accepted `meeting_id`
(`supabase/functions/analyze-meeting/index.ts`): fetch the segments (failing
when the fetch errors or no segment exists), call generation on the
concatenated transcript, parse with graceful degradation, upsert the note,
insert the action items (only when non-empty), set status `linking`; the
catch handler sets status `failed` and returns a 500 response. -/
def runAnalyze (env : AnalyzeEnv) (st : Store) (mid : String) :
    StageResponse × Store :=
  match env.fetchError with
  | some e =>
    (.failure 500 ("Transcript fetch failed: " ++ e), setStatus st mid "failed")
  | none =>
    if (st.transcripts.filter fun s => s.meeting_id = mid).length = 0 then
      (.failure 500 "No transcripts found for this meeting",
       setStatus st mid "failed")
    else
      match env.gemini (buildFullTranscript
          (st.transcripts.filter fun s => s.meeting_id = mid)) with
      | .error e => (.failure 500 e, setStatus st mid "failed")
      | .ok rawText =>
        match env.noteError with
        | some e =>
          (.failure 500 ("Save note failed: " ++ e), setStatus st mid "failed")
        | none =>
          match (if (mkActionItems mid (parseAnalysisText env.parse rawText)).length = 0
                 then none else env.actionError) with
          | some e =>
            (.failure 500 ("Save action items failed: " ++ e),
             setStatus { st with notes := upsertNoteList st.notes (mkNoteRow mid (parseAnalysisText env.parse rawText)) } mid "failed")
          | none =>
            (.success (mkActionItems mid (parseAnalysisText env.parse rawText)).length,
             setStatus { st with
               notes := upsertNoteList st.notes (mkNoteRow mid (parseAnalysisText env.parse rawText)),
               action_items := st.action_items ++ mkActionItems mid (parseAnalysisText env.parse rawText) }
               mid "linking")

/-- The constant `MAX_RELATED = 5`. -/
def MAX_RELATED : Nat := 5

/-- The constant `SIMILARITY_THRESHOLD = 0.65`. -/
def SIMILARITY_THRESHOLD : ℚ := 65 / 100

/-- JavaScript `Math.round` (round half toward positive infinity). -/
def jsRound (q : ℚ) : ℤ := ⌊q + 1 / 2⌋

/-- The strength `Math.round(match.similarity * 100) / 100`: the similarity rounded to
two decimal places. -/
def roundStrength (sim : ℚ) : ℚ := (jsRound (sim * 100) : ℚ) / 100

/-- The relation label derivation of the linking loop: `continues` for two
meeting nodes; for two decision nodes `resolves` above similarity 0.85 and
`references` otherwise; `references` for every other combination. -/
def deriveRelation (nodeType matchType : String) (similarity : ℚ) : String :=
  if nodeType = "meeting" ∧ matchType = "meeting" then "continues"
  else if nodeType = "decision" ∧ matchType = "decision" then
    if similarity > 85 / 100 then "resolves" else "references"
  else "references"

/-- One row returned by the `search_nodes` nearest-neighbour RPC. -/
structure SearchMatch where
  id : Nat
  node_type : String
  similarity : ℚ
deriving DecidableEq, Repr

/-- A candidate node (`nodesToInsert` entry) built by the linking stage. -/
structure NodeCandidate where
  user_id : String
  node_type : String
  title : String
  content : String
  embedding : Option (List ℚ)
  source_meeting_id : String
deriving DecidableEq, Repr

/-- Outcomes of the external calls made by the linking stage: the embedding
endpoint (`none` models any embed failure, which the source tolerates), the
`search_nodes` RPC keyed on the query embedding together with the count and
threshold arguments, and the two batch-insert error cases the source checks. -/
structure LinkEnv where
  embed : String → Option (List ℚ)
  search : List ℚ → Nat → ℚ → List SearchMatch
  insertNodesError : Option String
  insertEdgesError : Option String

/-- The `embed` helper: the text is truncated to 4000 characters before the
call; any failure yields `null`. -/
def embedCall (env : LinkEnv) (text : String) : Option (List ℚ) :=
  env.embed (strTake text 4000)

/-- Candidate node construction (step "Creating nodes + embeddings"):
one `meeting` node (summary plus up to 2000 transcript characters when a
summary exists, else up to 3000 transcript characters), one `note` node per
existing non-empty summary, one `decision` node per decision string, one
`action` node per action item; titles longer than 80 characters are
truncated with an ellipsis marker. -/
def buildCandidates (env : LinkEnv) (st : Store) (meeting : MeetingRow)
    (mid : String) : List NodeCandidate :=
  let note := st.notes.find? fun n => n.meeting_id = mid
  let actions := st.action_items.filter fun a => a.meeting_id = mid
  let fullText := String.intercalate " "
    ((st.transcripts.filter fun s => s.meeting_id = mid).map Segment.text)
  let summaryOpt : Option String :=
    match note with
    | some n => if n.summary = "" then none else some n.summary
    | none => none
  let meetingContent :=
    match summaryOpt with
    | some s => s ++ "\n\n" ++ strTake fullText 2000
    | none => strTake fullText 3000
  let meetingNode : NodeCandidate :=
    { user_id := meeting.user_id, node_type := "meeting",
      title := meeting.title, content := meetingContent,
      embedding := embedCall env (meeting.title ++ ": " ++ meetingContent),
      source_meeting_id := mid }
  let noteNodes : List NodeCandidate :=
    match summaryOpt with
    | some s =>
      [{ user_id := meeting.user_id, node_type := "note",
         title := "Summary: " ++ meeting.title, content := s,
         embedding := embedCall env s, source_meeting_id := mid }]
    | none => []
  let decisions : List String :=
    match note with
    | some n => n.decisions
    | none => []
  let decisionNodes := decisions.map fun dec =>
    { user_id := meeting.user_id, node_type := "decision",
      title := if dec.length > 80 then strTake dec 80 ++ "..." else dec,
      content := dec, embedding := embedCall env dec,
      source_meeting_id := mid }
  let actionNodes := actions.map fun action =>
    let actText := action.task ++ " (owner: " ++
      jsOrString action.owner "unassigned" ++ ", priority: " ++
      action.priority ++ ")"
    { user_id := meeting.user_id, node_type := "action",
      title := if action.task.length > 80
               then strTake action.task 80 ++ "..." else action.task,
      content := actText, embedding := embedCall env actText,
      source_meeting_id := mid }
  meetingNode :: (noteNodes ++ decisionNodes ++ actionNodes)

/-- Step "Removing old nodes/edges for this meeting": delete every edge
touching a node of this meeting (both directions) and every node of this
meeting; a no-op when the meeting has no nodes. -/
def removeOldNodes (st : Store) (mid : String) : Store :=
  let oldIds :=
    (st.nodes.filter fun n => n.source_meeting_id = mid).map StoredNode.id
  if oldIds.length > 0 then
    { st with
      edges := (st.edges.filter fun e => ¬ e.from_node ∈ oldIds).filter
                 fun e => ¬ e.to_node ∈ oldIds,
      nodes := st.nodes.filter fun n => ¬ n.source_meeting_id = mid }
  else st

/-- Batch insert of the candidate nodes; the store assigns sequential fresh
identifiers and the insert returns the inserted rows. -/
def insertNodesStore (st : Store) (cands : List NodeCandidate) :
    Store × List StoredNode :=
  let stored := cands.enum.map fun p =>
    { id := st.nextNodeId + p.1, user_id := p.2.user_id,
      node_type := p.2.node_type, title := p.2.title, content := p.2.content,
      embedding := p.2.embedding, source_meeting_id := p.2.source_meeting_id
      : StoredNode }
  ({ st with nodes := st.nodes ++ stored,
             nextNodeId := st.nextNodeId + cands.length }, stored)

/-- Batch insert of the accumulated edges (`.from("edges").insert(...)`). -/
def insertEdgesStore (st : Store) (es : List EdgeRow) : Store :=
  { st with edges := st.edges ++ es }

/-- The edge pushed for an accepted neighbour. -/
def mkEdge (node : StoredNode) (m : SearchMatch) : EdgeRow :=
  { from_node := node.id, to_node := m.id,
    relation := deriveRelation node.node_type m.node_type m.similarity,
    strength := roundStrength m.similarity }

/-- The `alreadyHasEdge` check: some accumulated edge joins `a` and `b` in
either direction. -/
def hasPair (edges : List EdgeRow) (a b : Nat) : Bool :=
  edges.any fun e =>
    (e.from_node = a ∧ e.to_node = b) ∨ (e.from_node = b ∧ e.to_node = a)

/-- The inner loop over the matches returned for one node: skip the node
itself and any neighbour already paired with it, otherwise push an edge;
`break` out of this inner loop once the accumulated edge count reaches the
cap. -/
def addEdgesForNode (cap : Nat) (node : StoredNode) :
    List SearchMatch → List EdgeRow → List EdgeRow
  | [], edges => edges
  | m :: ms, edges =>
    if m.id = node.id then addEdgesForNode cap node ms edges
    else if hasPair edges node.id m.id then addEdgesForNode cap node ms edges
    else if cap ≤ (edges ++ [mkEdge node m]).length then edges ++ [mkEdge node m]
    else addEdgesForNode cap node ms (edges ++ [mkEdge node m])

/-- The outer loop over the inserted nodes (step "Finding related nodes"):
nodes without an embedding are skipped; for the others the `search_nodes`
RPC is called with `MAX_RELATED + 5` and the similarity threshold, and the
inner loop accumulates edges. -/
def collectEdges (env : LinkEnv) (cap : Nat) :
    List StoredNode → List EdgeRow → List EdgeRow
  | [], edges => edges
  | node :: ns, edges =>
    match node.embedding with
    | none => collectEdges env cap ns edges
    | some emb =>
      collectEdges env cap ns
        (addEdgesForNode cap node
          (env.search emb (MAX_RELATED + 5) SIMILARITY_THRESHOLD) edges)

/-- The edge set accumulated by one linking run (`edgesToInsert` at step 5):
the cap is `MAX_RELATED` times the number of candidate nodes. -/
def linkEdges (env : LinkEnv) (st : Store) (meeting : MeetingRow)
    (mid : String) : List EdgeRow :=
  let cands := buildCandidates env st meeting mid
  let inserted := (insertNodesStore (removeOldNodes st mid) cands).2
  collectEdges env (MAX_RELATED * cands.length) inserted []

/-- The linking stage for an accepted `meeting_id` (the `link-meeting`
function): fetch the meeting, remove old nodes and edges, build and insert
candidate nodes, accumulate edges, insert them (skipping the call when the
set is empty), and set status `done`; the catch handler also sets status
`done` (linking is best-effort) while returning a 500 response. -/
def runLinkMeeting (env : LinkEnv) (st : Store) (mid : String) :
    StageResponse × Store :=
  match findMeeting st.meetings mid with
  | none => (.failure 500 "Meeting not found", setStatus st mid "done")
  | some meeting =>
    match env.insertNodesError with
    | some e =>
      (.failure 500 ("Insert nodes failed: " ++ e),
       setStatus (removeOldNodes st mid) mid "done")
    | none =>
      match (if (linkEdges env st meeting mid).length = 0 then none
             else env.insertEdgesError) with
      | some e =>
        (.failure 500 ("Insert edges failed: " ++ e),
         setStatus (insertNodesStore (removeOldNodes st mid)
           (buildCandidates env st meeting mid)).1 mid "done")
      | none =>
        (.success (linkEdges env st meeting mid).length,
         setStatus (insertEdgesStore (insertNodesStore (removeOldNodes st mid)
             (buildCandidates env st meeting mid)).1
           (linkEdges env st meeting mid)) mid "done")

/-- Two edge rows join the same unordered pair of nodes. -/
def samePair (e1 e2 : EdgeRow) : Prop :=
  (e1.from_node = e2.from_node ∧ e1.to_node = e2.to_node) ∨
  (e1.from_node = e2.to_node ∧ e1.to_node = e2.from_node)

/-- No two edges of the list join the same unordered pair of nodes. -/
def NoDupPairs (edges : List EdgeRow) : Prop :=
  edges.Pairwise fun e1 e2 => ¬ samePair e1 e2

/-- A linking environment in which every embedding fails (tolerated by the
stage) and no neighbour is returned. -/
def envW1 : LinkEnv :=
  { embed := fun _ => none
    search := fun _ _ _ => []
    insertNodesError := none
    insertEdgesError := none }

/-- A store holding one meeting in status `linking`. -/
def stW1 : Store :=
  { meetings := [⟨"m", "u", "t", "en-US", "linking", none⟩]
    transcripts := [], notes := [], action_items := []
    nodes := [], edges := [], nextNodeId := 0 }

/-- The meeting of the edge-cap scenario. -/
def mRowC3 : MeetingRow := ⟨"m", "u", "t", "en-US", "linking", none⟩

/-- A store with one meeting and a note with a summary and no decisions, so
that the linking stage builds exactly two candidate nodes. -/
def stC3 : Store :=
  { meetings := [mRowC3]
    transcripts := []
    notes := [⟨"m", "s", [], [], "gemini-2.5-flash"⟩]
    action_items := [], nodes := [], edges := [], nextNodeId := 0 }

/-- A linking environment for the edge-cap scenario: embeddings succeed
(the vector encodes the text length, so the two nodes get distinct
embeddings), the meeting node receives ten neighbours above the threshold
and the note node one further neighbour. -/
def envC3 : LinkEnv :=
  { embed := fun text => some [(text.length : ℚ)]
    search := fun emb _ _ =>
      if emb = [(6 : ℚ)] then
        (List.range 10).map fun i => ⟨100 + i, "note", 7 / 10⟩
      else if emb = [(1 : ℚ)] then [⟨200, "note", 7 / 10⟩]
      else []
    insertNodesError := none
    insertEdgesError := none }

/-- The meeting of the missing-audio scenario. -/
def mRowW9 : MeetingRow := ⟨"m9", "u", "t", "en-US", "processing", none⟩

/-- A store holding one meeting without an audio reference. -/
def stW9 : Store :=
  { meetings := [mRowW9]
    transcripts := [], notes := [], action_items := []
    nodes := [], edges := [], nextNodeId := 0 }

/-- A transcription environment (its calls are never reached in the
missing-audio scenario). -/
def envW9 : TranscribeEnv :=
  { download := none, startResult := .ok none, uploadResult := .ok none
    gemini := .error "x", insertError := none }

/-- An analysis environment whose generation response is not JSON and whose
JSON parser rejects every input. -/
def envW8 : AnalyzeEnv :=
  { fetchError := none
    gemini := fun _ => .ok "oops not json"
    parse := fun _ => none
    noteError := none
    actionError := none }

/-- A store holding one transcript segment for the analysed meeting. -/
def stW8 : Store :=
  { meetings := []
    transcripts := [⟨"m8", none, "hello", 0, 0, none, "en-US"⟩]
    notes := [], action_items := [], nodes := [], edges := [], nextNodeId := 0 }

/-- Any row of the meetings table that carries the targeted identifier has
the written status after a status update. -/
theorem setMeetingStatus_mem {ms : List MeetingRow} {mid s : String}
    {row : MeetingRow} (hrow : row ∈ setMeetingStatus ms mid s)
    (hid : row.id = mid) : row.status = s := by
  simp only [setMeetingStatus, List.mem_map] at hrow
  obtain ⟨m, _hm, hrow⟩ := hrow
  by_cases h : m.id = mid
  · rw [if_pos h] at hrow
    subst hrow
    rfl
  · rw [if_neg h] at hrow
    subst hrow
    exact absurd hid h

/-- Claim C5: payloads of at most `4 * 1024 * 1024` bytes select the inline
base64 path, strictly larger payloads select the resumable-upload path, and
the boundary payload of exactly `4 * 1024 * 1024` bytes selects inline. -/
theorem C5_transfer_strategy (n : Nat) :
    (n ≤ 4 * 1024 * 1024 → chooseTransfer n = .inlineBase64) ∧
    (4 * 1024 * 1024 < n → chooseTransfer n = .fileApi) ∧
    chooseTransfer (4 * 1024 * 1024) = .inlineBase64 := by
  refine ⟨fun h => ?_, fun h => ?_, by decide⟩
  · unfold chooseTransfer
    rw [if_neg (by omega)]
  · unfold chooseTransfer
    rw [if_pos (by omega)]

/-- Witness for C5 at concrete payload sizes on both sides of the
threshold. -/
theorem C5_transfer_strategy_witness :
    (100 ≤ 4 * 1024 * 1024 ∧ chooseTransfer 100 = .inlineBase64) ∧
    (4 * 1024 * 1024 < 4194305 ∧ chooseTransfer 4194305 = .fileApi) :=
  ⟨⟨by norm_num, (C5_transfer_strategy 100).1 (by norm_num)⟩,
   ⟨by norm_num, (C5_transfer_strategy 4194305).2.1 (by norm_num)⟩⟩

/-- Every edge produced by the inner matching loop is either an initial
edge or built by `mkEdge` from the node and one of its matches. -/
theorem addEdgesForNode_mem {cap : Nat} {node : StoredNode}
    {ms : List SearchMatch} {edges : List EdgeRow} {e : EdgeRow}
    (he : e ∈ addEdgesForNode cap node ms edges) :
    e ∈ edges ∨ ∃ m, m ∈ ms ∧ e = mkEdge node m := by
  induction ms generalizing edges with
  | nil => exact Or.inl he
  | cons m ms ih =>
    rw [addEdgesForNode] at he
    split at he
    · rcases ih he with h | ⟨m', hm', he'⟩
      · exact Or.inl h
      · exact Or.inr ⟨m', List.mem_cons_of_mem _ hm', he'⟩
    · split at he
      · rcases ih he with h | ⟨m', hm', he'⟩
        · exact Or.inl h
        · exact Or.inr ⟨m', List.mem_cons_of_mem _ hm', he'⟩
      · split at he
        · rcases List.mem_append.1 he with h | h
          · exact Or.inl h
          · rw [List.mem_singleton] at h
            exact Or.inr ⟨m, List.mem_cons_self _ _, h⟩
        · rcases ih he with h | ⟨m', hm', he'⟩
          · rcases List.mem_append.1 h with h | h
            · exact Or.inl h
            · rw [List.mem_singleton] at h
              exact Or.inr ⟨m, List.mem_cons_self _ _, h⟩
          · exact Or.inr ⟨m', List.mem_cons_of_mem _ hm', he'⟩

/-- Every edge produced by the outer loop is either an initial edge or
built by `mkEdge` from an embedded node and one of its search results. -/
theorem collectEdges_mem {env : LinkEnv} {cap : Nat}
    {nodes : List StoredNode} {edges : List EdgeRow} {e : EdgeRow}
    (he : e ∈ collectEdges env cap nodes edges) :
    e ∈ edges ∨ ∃ n, n ∈ nodes ∧ ∃ emb, n.embedding = some emb ∧
      ∃ m, m ∈ env.search emb (MAX_RELATED + 5) SIMILARITY_THRESHOLD ∧
        e = mkEdge n m := by
  induction nodes generalizing edges with
  | nil => exact Or.inl he
  | cons node ns ih =>
    rw [collectEdges] at he
    split at he
    · rcases ih he with h | ⟨n, hn, rest⟩
      · exact Or.inl h
      · exact Or.inr ⟨n, List.mem_cons_of_mem _ hn, rest⟩
    · rename_i emb hemb
      rcases ih he with h | ⟨n, hn, rest⟩
      · rcases addEdgesForNode_mem h with h' | ⟨m, hm, he'⟩
        · exact Or.inl h'
        · exact Or.inr ⟨node, List.mem_cons_self _ _, emb, hemb, m, hm, he'⟩
      · exact Or.inr ⟨n, List.mem_cons_of_mem _ hn, rest⟩

/-- Claim C4: the relation label is `continues` for two meeting nodes; for
two decision nodes it is `resolves` above similarity 0.85 and `references`
otherwise (in particular `resolves` at 0.90 and `references` at 0.70);
every other combination gets `references`; and every accumulated edge has
relation and strength derived by these rules, the strength being the
similarity rounded to two decimal places. -/
theorem C4_relation_and_strength :
    (∀ s : ℚ, deriveRelation "meeting" "meeting" s = "continues") ∧
    (∀ s : ℚ, 85 / 100 < s →
      deriveRelation "decision" "decision" s = "resolves") ∧
    (∀ s : ℚ, ¬ 85 / 100 < s →
      deriveRelation "decision" "decision" s = "references") ∧
    (∀ nt mt : String, ∀ s : ℚ, ¬ (nt = "meeting" ∧ mt = "meeting") →
      ¬ (nt = "decision" ∧ mt = "decision") →
      deriveRelation nt mt s = "references") ∧
    deriveRelation "decision" "decision" (90 / 100) = "resolves" ∧
    deriveRelation "decision" "decision" (70 / 100) = "references" ∧
    roundStrength (867 / 1000) = 87 / 100 ∧
    (∀ node m, (mkEdge node m).relation =
        deriveRelation node.node_type m.node_type m.similarity ∧
      (mkEdge node m).strength = roundStrength m.similarity) ∧
    (∀ env cap nodes e, e ∈ collectEdges env cap nodes ([] : List EdgeRow) →
      ∃ n, n ∈ nodes ∧ ∃ emb, n.embedding = some emb ∧
        ∃ m, m ∈ env.search emb (MAX_RELATED + 5) SIMILARITY_THRESHOLD ∧
          e = mkEdge n m) := by
  have hd9 : deriveRelation "decision" "decision" (90 / 100) = "resolves" := by
    unfold deriveRelation
    rw [if_neg (by decide), if_pos (by decide),
        if_pos (by norm_num : (85 : ℚ) / 100 < 90 / 100)]
  have hd7 : deriveRelation "decision" "decision" (70 / 100) = "references" := by
    unfold deriveRelation
    rw [if_neg (by decide), if_pos (by decide),
        if_neg (by norm_num : ¬ (85 : ℚ) / 100 < 70 / 100)]
  have hrs : roundStrength (867 / 1000) = 87 / 100 := by
    unfold roundStrength jsRound
    rw [show (867 / 1000 * 100 : ℚ) + 1 / 2 = 436 / 5 by norm_num]
    rw [show (⌊(436 / 5 : ℚ)⌋ : ℤ) = 87 by
      rw [Int.floor_eq_iff]
      norm_num]
    norm_num
  refine ⟨fun s => ?_, fun s h => ?_, fun s h => ?_,
          fun nt mt s h1 h2 => ?_, hd9, hd7, hrs,
          fun node m => ⟨rfl, rfl⟩, fun env cap nodes e he => ?_⟩
  · unfold deriveRelation
    rw [if_pos (by decide)]
  · unfold deriveRelation
    rw [if_neg (by decide), if_pos (by decide), if_pos h]
  · unfold deriveRelation
    rw [if_neg (by decide), if_pos (by decide), if_neg h]
  · unfold deriveRelation
    rw [if_neg h1, if_neg h2]
  · rcases collectEdges_mem he with h | h
    · exact absurd h (List.not_mem_nil e)
    · exact h

/-- Witness for C4 applying the decision-node rule at similarity 0.90. -/
theorem C4_relation_and_strength_witness :
    (85 / 100 : ℚ) < 9 / 10 ∧
    deriveRelation "decision" "decision" (9 / 10) = "resolves" :=
  ⟨by norm_num, C4_relation_and_strength.2.1 (9 / 10) (by norm_num)⟩


/-- Claim C6 fails as stated: the source regex carries the `i` flag, so the
lowercase line `speaker 1: Hello` — which does not match the claim's
case-sensitive pattern and is not blank — still receives a speaker label
instead of the null label the claim predicts. -/
theorem C6_counterexample :
    parseLine "m" "en-US" "speaker 1: Hello" =
      some ⟨"m", some "speaker 1", "Hello", 0, 0, none, "en-US"⟩ ∧
    (parseLine "m" "en-US" "speaker 1: Hello").map Segment.speaker_label ≠
      some none := by
  exact ⟨by decide, by decide⟩

/-- Claim C6 (amended): parsing is line by line with the speaker pattern
matched case-insensitively; a trimmed line matching it yields a segment
labelled with the matched text (original casing) and the trimmed remainder
as text, a non-matching non-blank line yields a segment with a null label,
blank lines are skipped, and the given two-line transcript yields exactly
the two stated segments. -/
theorem C6_parse_lines (mid lang : String) :
    parseTranscript mid lang "Speaker 1: Hello\nHello back" =
      [⟨mid, some "Speaker 1", "Hello", 0, 0, none, lang⟩,
       ⟨mid, none, "Hello back", 0, 0, none, lang⟩] ∧
    (∀ l, jsTrim l = "" → parseLine mid lang l = none) ∧
    (∀ l, jsTrim l ≠ "" → matchSpeaker (jsTrim l).data = none →
      parseLine mid lang l = some ⟨mid, none, jsTrim l, 0, 0, none, lang⟩) ∧
    (∀ l lbl rest, jsTrim l ≠ "" →
      matchSpeaker (jsTrim l).data = some (lbl, rest) →
      parseLine mid lang l =
        some ⟨mid, some ⟨lbl⟩, jsTrim ⟨rest⟩, 0, 0, none, lang⟩) := by
  refine ⟨rfl, fun l h => ?_, fun l h1 h2 => ?_, fun l lbl rest h1 h2 => ?_⟩
  · unfold parseLine
    rw [if_pos h]
  · unfold parseLine
    rw [if_neg h1, h2]
  · unfold parseLine
    rw [if_neg h1, h2]

/-- Witness for C6 (amended) skipping a blank line. -/
theorem C6_parse_lines_witness :
    jsTrim "   " = "" ∧ parseLine "mw" "en-US" "   " = none :=
  ⟨by decide, (C6_parse_lines "mw" "en-US").2.1 "   " (by decide)⟩

/-- Claim C7: a transcript that is empty or exactly `[inaudible]` after
trimming yields exactly the single sentinel segment, and a transcription
run whose model response is such a transcript appends exactly that sentinel
segment to the transcript store and reports one saved segment. -/
theorem C7_sentinel (mid t : String)
    (h : jsTrim t = "" ∨ jsTrim t = "[inaudible]") :
    (∀ lang, parseTranscript mid lang t = [sentinelSegment mid lang]) ∧
    (∀ env st m p bytes,
      findMeeting st.meetings mid = some m →
      m.audio_path = some p → p ≠ "" →
      env.download = some bytes →
      (chooseTransfer bytes.length = TransferStrategy.inlineBase64 ∨
        ∃ u, uploadFileApi env = Except.ok u) →
      env.gemini = .ok t →
      env.insertError = none →
      (runTranscribe env st mid).1 = .success 1 ∧
      (runTranscribe env st mid).2.transcripts =
        st.transcripts ++ [sentinelSegment mid m.language_code]) := by
  have hparse : ∀ lang, parseTranscript mid lang t = [sentinelSegment mid lang] := by
    intro lang
    have hs : parsedSegments mid lang t = [] := by
      unfold parsedSegments
      rw [if_pos h]
    unfold parseTranscript
    rw [hs]
    rfl
  refine ⟨hparse, fun env st m p bytes h1 h2 h3 h4 h5 h6 h7 => ?_⟩
  have hrun : runTranscribe env st mid =
      (.success 1,
       setStatus { st with transcripts :=
         st.transcripts ++ [sentinelSegment mid m.language_code] }
         mid "analyzing") := by
    unfold runTranscribe
    rcases h5 with h5 | ⟨u, hu⟩
    · simp [h1, h2, h3, h4, h5, h6, h7, hparse m.language_code]
    · cases hct : chooseTransfer bytes.length
      · simp [h1, h2, h3, h4, hct, h6, h7, hparse m.language_code]
      · simp [h1, h2, h3, h4, hct, hu, h6, h7, Except.map,
              hparse m.language_code]
  rw [hrun]
  exact ⟨rfl, rfl⟩

/-- Witness for C7 at the literal `[inaudible]` transcript. -/
theorem C7_sentinel_witness :
    jsTrim "[inaudible]" = "[inaudible]" ∧
    parseTranscript "m7" "en-US" "[inaudible]" = [sentinelSegment "m7" "en-US"] :=
  ⟨by decide, (C7_sentinel "m7" "[inaudible]" (Or.inr (by decide))).1 "en-US"⟩

/-- The inner matching loop preserves the no-duplicate-unordered-pair
invariant: an edge is only pushed after the `alreadyHasEdge` check fails
for both directions. -/
theorem addEdgesForNode_nodup {cap : Nat} {node : StoredNode}
    {ms : List SearchMatch} {edges : List EdgeRow}
    (h : NoDupPairs edges) : NoDupPairs (addEdgesForNode cap node ms edges) := by
  induction ms generalizing edges with
  | nil => exact h
  | cons m ms ih =>
    rw [addEdgesForNode]
    split
    · exact ih h
    · split
      · exact ih h
      · rename_i hself hdup
        have hnew : NoDupPairs (edges ++ [mkEdge node m]) := by
          unfold NoDupPairs at h ⊢
          rw [List.pairwise_append]
          refine ⟨h, List.pairwise_singleton _ _, ?_⟩
          intro e1 he1 e2 he2
          rw [List.mem_singleton] at he2
          subst he2
          intro hsp
          apply hdup
          unfold hasPair
          rw [List.any_eq_true]
          refine ⟨e1, he1, ?_⟩
          rw [decide_eq_true_eq]
          simp only [samePair, mkEdge] at hsp
          exact hsp
        split
        · exact hnew
        · exact ih hnew

/-- The outer loop preserves the no-duplicate-unordered-pair invariant. -/
theorem collectEdges_nodup {env : LinkEnv} {cap : Nat}
    {nodes : List StoredNode} {edges : List EdgeRow}
    (h : NoDupPairs edges) : NoDupPairs (collectEdges env cap nodes edges) := by
  induction nodes generalizing edges with
  | nil => exact h
  | cons node ns ih =>
    rw [collectEdges]
    split
    · exact ih h
    · exact ih (addEdgesForNode_nodup h)

/-- Claim C2: within a single linking run the accumulated edge set never
contains two edges connecting the same unordered pair of nodes — for every
pair of nodes at most one edge joins them in either direction per run. -/
theorem C2_no_duplicate_pairs (env : LinkEnv) (st : Store)
    (meeting : MeetingRow) (mid : String) :
    NoDupPairs (linkEdges env st meeting mid) := by
  unfold linkEdges
  exact collectEdges_nodup List.Pairwise.nil

/-- Whatever the entry edge count, the inner loop leaves at most
`max cap (entry + 1)` edges: one push can land past the cap, after which
the loop breaks. -/
theorem addEdgesForNode_length_le {cap : Nat} {node : StoredNode}
    (ms : List SearchMatch) (edges : List EdgeRow) :
    (addEdgesForNode cap node ms edges).length ≤ max cap (edges.length + 1) := by
  induction ms generalizing edges with
  | nil =>
    rw [addEdgesForNode]
    omega
  | cons m ms ih =>
    rw [addEdgesForNode]
    split
    · have hih := ih edges
      omega
    · split
      · have hih := ih edges
        omega
      · split
        · rename_i hbrk
          simp only [List.length_append, List.length_singleton]
          omega
        · rename_i hbrk
          have hih := ih (edges ++ [mkEdge node m])
          simp only [List.length_append, List.length_singleton] at hih hbrk
          omega

/-- Entering the inner loop strictly below the cap, it never leaves more
than `cap` edges. -/
theorem addEdgesForNode_length_lt_cap {cap : Nat} {node : StoredNode}
    (ms : List SearchMatch) (edges : List EdgeRow)
    (h : edges.length < cap) :
    (addEdgesForNode cap node ms edges).length ≤ cap := by
  induction ms generalizing edges h with
  | nil =>
    rw [addEdgesForNode]
    omega
  | cons m ms ih =>
    rw [addEdgesForNode]
    split
    · exact ih edges h
    · split
      · exact ih edges h
      · split
        · rename_i hbrk
          simp only [List.length_append, List.length_singleton] at hbrk ⊢
          omega
        · rename_i hbrk
          apply ih
          simp only [List.length_append, List.length_singleton] at hbrk ⊢
          omega

/-- The outer loop adds at most one edge per node beyond
`max cap (entry count)`. -/
theorem collectEdges_length_le {env : LinkEnv} {cap : Nat}
    (nodes : List StoredNode) (edges : List EdgeRow) :
    (collectEdges env cap nodes edges).length ≤
      max cap edges.length + nodes.length := by
  induction nodes generalizing edges with
  | nil =>
    rw [collectEdges]
    simp only [List.length_nil]
    omega
  | cons node ns ih =>
    rw [collectEdges]
    split
    · have hih := ih edges
      simp only [List.length_cons]
      omega
    · rename_i emb hemb
      have hih := ih (addEdgesForNode cap node
        (env.search emb (MAX_RELATED + 5) SIMILARITY_THRESHOLD) edges)
      have hone : (addEdgesForNode cap node
          (env.search emb (MAX_RELATED + 5) SIMILARITY_THRESHOLD) edges).length ≤
          max cap (edges.length + 1) := addEdgesForNode_length_le _ _
      simp only [List.length_cons]
      omega

/-- Starting strictly below the cap, a batch of `n` nodes accumulates at
most `cap + n - 1` edges: the first node cannot overshoot, and each later
node adds at most one edge past the cap. -/
theorem collectEdges_length_tight {env : LinkEnv} {cap : Nat}
    (nodes : List StoredNode) (edges : List EdgeRow)
    (h : edges.length < cap) :
    (collectEdges env cap nodes edges).length ≤ cap + nodes.length - 1 := by
  induction nodes generalizing edges with
  | nil =>
    rw [collectEdges]
    simp only [List.length_nil]
    omega
  | cons node ns ih =>
    rw [collectEdges]
    split
    · have hih := ih edges h
      simp only [List.length_cons]
      omega
    · rename_i emb hemb
      by_cases h2 : (addEdgesForNode cap node
          (env.search emb (MAX_RELATED + 5) SIMILARITY_THRESHOLD) edges).length < cap
      · have hih := ih _ h2
        simp only [List.length_cons]
        omega
      · have hle : (addEdgesForNode cap node
            (env.search emb (MAX_RELATED + 5) SIMILARITY_THRESHOLD) edges).length ≤
            cap := addEdgesForNode_length_lt_cap _ _ h
        have hall : (collectEdges env cap ns (addEdgesForNode cap node
            (env.search emb (MAX_RELATED + 5) SIMILARITY_THRESHOLD) edges)).length ≤
            max cap (addEdgesForNode cap node
              (env.search emb (MAX_RELATED + 5) SIMILARITY_THRESHOLD) edges).length +
              ns.length := collectEdges_length_le _ _
        simp only [List.length_cons]
        omega

/-- The candidate list always contains at least the meeting node. -/
theorem buildCandidates_length_pos (env : LinkEnv) (st : Store)
    (meeting : MeetingRow) (mid : String) :
    1 ≤ (buildCandidates env st meeting mid).length := by
  unfold buildCandidates
  simp only [List.length_cons]
  omega

/-- The node batch insert returns exactly one row per candidate. -/
theorem insertNodesStore_snd_length (st : Store) (cands : List NodeCandidate) :
    ((insertNodesStore st cands).2).length = cands.length := by
  unfold insertNodesStore
  simp [List.enum_length]

/-- Claim C3 fails as stated: with two candidate nodes the cap is
`MAX_RELATED * 2 = 10`, yet this run accumulates 11 edges — reaching the
cap only breaks the inner loop, so the second node still pushes one more
edge past it. -/
theorem C3_counterexample :
    (linkEdges envC3 stC3 mRowC3 "m").length = 11 ∧
    ¬ ((linkEdges envC3 stC3 mRowC3 "m").length ≤
        MAX_RELATED * (buildCandidates envC3 stC3 mRowC3 "m").length) :=
  ⟨by decide, by decide⟩

/-- Claim C3 (amended): the number of edges accumulated by one linking run
never exceeds `MAX_RELATED * n + (n - 1)` where `n` is the number of
candidate nodes — once the total reaches `MAX_RELATED * n` only the inner
loop stops, so each remaining node can add at most one more edge. -/
theorem C3_edge_cap_amended (env : LinkEnv) (st : Store)
    (meeting : MeetingRow) (mid : String) :
    (linkEdges env st meeting mid).length ≤
      MAX_RELATED * (buildCandidates env st meeting mid).length +
        ((buildCandidates env st meeting mid).length - 1) := by
  have hn := buildCandidates_length_pos env st meeting mid
  have hcap : 0 < MAX_RELATED * (buildCandidates env st meeting mid).length := by
    unfold MAX_RELATED
    omega
  have ht : (collectEdges env
      (MAX_RELATED * (buildCandidates env st meeting mid).length)
      (insertNodesStore (removeOldNodes st mid)
        (buildCandidates env st meeting mid)).2 []).length ≤
      MAX_RELATED * (buildCandidates env st meeting mid).length +
        ((insertNodesStore (removeOldNodes st mid)
          (buildCandidates env st meeting mid)).2).length - 1 :=
    collectEdges_length_tight _ _ (by simpa using hcap)
  rw [insertNodesStore_snd_length] at ht
  unfold linkEdges
  dsimp only
  unfold MAX_RELATED at ht ⊢
  omega

/-- Claim C1: once the `meeting_id` is accepted, every status row the
linking stage leaves for that meeting is the terminal success status
`done`, in every branch — the success path and the catch handler both write
`done`, so `failed` is unreachable from the linking stage. -/
theorem C1_linking_status_done (env : LinkEnv) (st : Store) (mid : String) :
    ∀ row ∈ (runLinkMeeting env st mid).2.meetings,
      row.id = mid → row.status = "done" := by
  intro row hrow hid
  have hex : ∃ st0 : Store, (runLinkMeeting env st mid).2 =
      setStatus st0 mid "done" := by
    unfold runLinkMeeting
    split
    · exact ⟨st, rfl⟩
    · split
      · exact ⟨_, rfl⟩
      · split
        · exact ⟨_, rfl⟩
        · exact ⟨_, rfl⟩
  obtain ⟨st0, hst⟩ := hex
  rw [hst] at hrow
  exact setMeetingStatus_mem hrow hid

/-- Witness for C1: a concrete linking run leaves its meeting in status
`done`. -/
theorem C1_linking_status_done_witness :
    (⟨"m", "u", "t", "en-US", "done", none⟩ : MeetingRow) ∈
      (runLinkMeeting envW1 stW1 "m").2.meetings ∧
    (⟨"m", "u", "t", "en-US", "done", none⟩ : MeetingRow).status = "done" :=
  ⟨by decide, C1_linking_status_done envW1 stW1 "m"
    ⟨"m", "u", "t", "en-US", "done", none⟩ (by decide) rfl⟩

/-- Claim C9: invoking transcription on a meeting that exists but has no
audio reference returns the 500 `No audio uploaded` failure, leaves the
transcript store unchanged, and sets the meeting status to `failed`. -/
theorem C9_no_audio_failure (env : TranscribeEnv) (st : Store) (mid : String)
    (m : MeetingRow) (hfind : findMeeting st.meetings mid = some m)
    (haudio : m.audio_path = none) :
    (runTranscribe env st mid).1 = .failure 500 "No audio uploaded" ∧
    (runTranscribe env st mid).2.transcripts = st.transcripts ∧
    ∀ row ∈ (runTranscribe env st mid).2.meetings,
      row.id = mid → row.status = "failed" := by
  have hr : runTranscribe env st mid =
      (.failure 500 "No audio uploaded", setStatus st mid "failed") := by
    unfold runTranscribe
    rw [hfind]
    dsimp only
    rw [if_pos (Or.inl haudio)]
  refine ⟨by rw [hr], by rw [hr]; rfl, ?_⟩
  intro row hrow hid
  rw [hr] at hrow
  exact setMeetingStatus_mem hrow hid

/-- Witness for C9 on a concrete meeting without audio. -/
theorem C9_no_audio_failure_witness :
    findMeeting stW9.meetings "m9" = some mRowW9 ∧
    mRowW9.audio_path = none ∧
    (runTranscribe envW9 stW9 "m9").1 = .failure 500 "No audio uploaded" :=
  ⟨by decide, rfl,
   (C9_no_audio_failure envW9 stW9 "m9" mRowW9 (by decide) rfl).1⟩

/-- Claim C8: when the fence-stripped generation response cannot be parsed
as JSON, the analysis stage does not throw — it synthesizes the fallback
payload whose summary is the 500-character prefix of the raw response and
whose three array fields are empty, upserts the corresponding note, and
completes with a success response. -/
theorem C8_parse_failure_fallback (env : AnalyzeEnv) (st : Store)
    (mid raw : String)
    (hfetch : env.fetchError = none)
    (hseg : ¬ (st.transcripts.filter fun s => s.meeting_id = mid).length = 0)
    (hgem : env.gemini (buildFullTranscript
      (st.transcripts.filter fun s => s.meeting_id = mid)) = .ok raw)
    (hparse : env.parse (stripFences raw) = none)
    (hnote : env.noteError = none) :
    parseAnalysisText env.parse raw =
      { summary := some (strTake raw 500), action_items := some [],
        decisions := some [], open_questions := some [] } ∧
    (runAnalyze env st mid).1 = .success 0 ∧
    (runAnalyze env st mid).2.notes =
      upsertNoteList st.notes (mkNoteRow mid (parseAnalysisText env.parse raw)) ∧
    (mkNoteRow mid (parseAnalysisText env.parse raw)).decisions = [] ∧
    (mkNoteRow mid (parseAnalysisText env.parse raw)).open_questions = [] ∧
    mkActionItems mid (parseAnalysisText env.parse raw) = [] := by
  have hana : parseAnalysisText env.parse raw =
      { summary := some (strTake raw 500), action_items := some [],
        decisions := some [], open_questions := some [] } := by
    simp only [parseAnalysisText, hparse]
  have hitems : mkActionItems mid (parseAnalysisText env.parse raw) = [] := by
    rw [hana]
    rfl
  have hrun : runAnalyze env st mid =
      (.success 0,
       setStatus { st with
         notes := upsertNoteList st.notes (mkNoteRow mid (parseAnalysisText env.parse raw)),
         action_items := st.action_items } mid "linking") := by
    unfold runAnalyze
    rw [hfetch]
    simp only [if_neg hseg, hgem, hnote, hitems, List.length_nil,
      List.append_nil, eq_self_iff_true, if_true]
  refine ⟨hana, by rw [hrun], by rw [hrun]; rfl, ?_, ?_, hitems⟩
  · rw [hana]
    rfl
  · rw [hana]
    rfl

/-- Witness for C8 with a concrete non-JSON response. -/
theorem C8_parse_failure_fallback_witness :
    envW8.parse (stripFences "oops not json") = none ∧
    parseAnalysisText envW8.parse "oops not json" =
      { summary := some (strTake "oops not json" 500), action_items := some [],
        decisions := some [], open_questions := some [] } :=
  ⟨rfl, (C8_parse_failure_fallback envW8 stW8 "m8" "oops not json"
    rfl (by decide) rfl rfl rfl).1⟩

/-- The stored summary of an upserted note is never the empty string:
`analysis.summary || "No summary generated"`. -/
theorem mkNoteRow_summary_ne (mid : String) (a : Analysis) :
    (mkNoteRow mid a).summary ≠ "" := by
  have hs : (mkNoteRow mid a).summary =
      jsOrString a.summary "No summary generated" := rfl
  rw [hs]
  unfold jsOrString
  cases a.summary with
  | none => decide
  | some s =>
    dsimp only
    split
    · decide
    · rename_i hne
      exact hne

/-- A member of the upserted note list carrying the upserted key is the
upserted row itself. -/
theorem upsertNoteList_mem {notes : List NoteRow} {row n : NoteRow}
    (hn : n ∈ upsertNoteList notes row)
    (hid : n.meeting_id = row.meeting_id) : n = row := by
  unfold upsertNoteList at hn
  split at hn
  · rw [List.mem_map] at hn
    obtain ⟨n0, hn0, heq⟩ := hn
    by_cases h : n0.meeting_id = row.meeting_id
    · rw [if_pos h] at heq
      exact heq.symm
    · rw [if_neg h] at heq
      subst heq
      exact absurd hid h
  · rename_i hany
    rcases List.mem_append.1 hn with h | h
    · exfalso
      apply hany
      rw [List.any_eq_true]
      refine ⟨n, h, ?_⟩
      rw [decide_eq_true_eq]
      exact hid
    · rw [List.mem_singleton] at h
      exact h

/-- Claim C10: the note row built for persistence always has a non-empty
summary — when the parsed or fallback summary is absent or empty the
literal `No summary generated` is stored — and in every analysis run that
reaches the persistence step and succeeds, every stored note of the
analysed meeting has a non-empty summary. -/
theorem C10_summary_nonempty (mid : String) (a : Analysis) :
    (mkNoteRow mid a).summary ≠ "" ∧
    ((a.summary = none ∨ a.summary = some "") →
      (mkNoteRow mid a).summary = "No summary generated") ∧
    (∀ env st k st', runAnalyze env st mid = (.success k, st') →
      ∀ n ∈ st'.notes, n.meeting_id = mid → n.summary ≠ "") := by
  refine ⟨mkNoteRow_summary_ne mid a, fun h => ?_,
    fun env st k st' hrun n hn hnid => ?_⟩
  · have hs : (mkNoteRow mid a).summary =
        jsOrString a.summary "No summary generated" := rfl
    rw [hs]
    rcases h with h | h
    · rw [h]
      rfl
    · rw [h]
      rfl
  · unfold runAnalyze at hrun
    split at hrun
    · exact absurd hrun (by simp)
    · split at hrun
      · exact absurd hrun (by simp)
      · split at hrun
        · exact absurd hrun (by simp)
        · split at hrun
          · exact absurd hrun (by simp)
          · split at hrun
            · exact absurd hrun (by simp)
            · rw [Prod.mk.injEq] at hrun
              obtain ⟨hk, hst⟩ := hrun
              subst hst
              have hrow := upsertNoteList_mem hn hnid
              rw [hrow]
              exact mkNoteRow_summary_ne mid _

/-- Witness for C10 at an analysis payload without a summary. -/
theorem C10_summary_nonempty_witness :
    ((⟨none, none, none, none⟩ : Analysis).summary = none ∨
      (⟨none, none, none, none⟩ : Analysis).summary = some "") ∧
    (mkNoteRow "m10" ⟨none, none, none, none⟩).summary =
      "No summary generated" :=
  ⟨Or.inl rfl,
   (C10_summary_nonempty "m10" ⟨none, none, none, none⟩).2.1 (Or.inl rfl)⟩

end MeetingBrain
